import Mathlib

/-!
Shallow embedding of the foliot time tracker (src/main.rs).

Timestamps (`DateTime<Local>`) are modelled as minutes since an arbitrary
epoch (an `Int`): the program only ever produces minute-aligned instants
(`now()` rounds to whole minutes) and compares them chronologically, so the
chronological order and arithmetic of `DateTime<Local>` restrict to `Int`.
The `now()` rounding itself (which acts below minute granularity) is
modelled separately at nanosecond precision, mirroring chrono's
`duration_round`.

Rust's `i64` division and remainder truncate toward zero; they are
modelled by `Int.tdiv` and `Int.tmod`.
-/

/-- Struct `HumanDuration` from main.rs: hours and minutes as signed integers. -/
@[ext]
structure HumanDuration where
  hours : Int
  minutes : Int
deriving DecidableEq, Repr

/-- Constructor `HumanDuration::zero`. -/
def HumanDuration.zero : HumanDuration :=
  { hours := 0, minutes := 0 }

/-- The `impl Add for HumanDuration` (main.rs lines 306-316): sum the minutes,
carry `added_minutes / 60` into hours, keep `added_minutes % 60` as minutes,
with Rust's truncating `/` and `%`. -/
def HumanDuration.add (a b : HumanDuration) : HumanDuration :=
  let added_minutes := a.minutes + b.minutes
  { hours := a.hours + b.hours + Int.tdiv added_minutes 60,
    minutes := Int.tmod added_minutes 60 }

/-- Struct `Entry` from main.rs: start time, end time (minutes since epoch) and an
optional comment. -/
structure Entry where
  start_time : Int
  end_time : Int
  comment : Option String
deriving DecidableEq, Repr

/-- The `impl Into<HumanDuration> for chrono::Duration` applied to
`end_time - start_time` (main.rs lines 237-241 and 318-325):
`num_hours` is the span in whole hours (truncated), and the minutes field
is `num_minutes % 60` with Rust's truncating `%`. -/
def Entry.duration (e : Entry) : HumanDuration :=
  { hours := Int.tdiv (e.end_time - e.start_time) 60,
    minutes := Int.tmod (e.end_time - e.start_time) 60 }

/-- Function `entries_overlap` (main.rs lines 486-491): the four strict
open-interval conditions, verbatim. -/
def entries_overlap (e1 e2 : Entry) : Bool :=
  (decide (e1.start_time > e2.start_time) && decide (e1.start_time < e2.end_time))
    || (decide (e1.end_time > e2.start_time) && decide (e1.end_time < e2.end_time))
    || (decide (e2.start_time > e1.start_time) && decide (e2.start_time < e1.end_time))
    || (decide (e2.end_time > e1.start_time) && decide (e2.end_time < e1.end_time))

/-- Ordering on optional comments: Rust's derived `Ord` on `Option<String>`
(`None` before `Some`, strings compared lexicographically). -/
def commentLe : Option String → Option String → Prop
  | none, _ => True
  | some _, none => False
  | some x, some y => x ≤ y

instance : DecidableRel commentLe := fun a b =>
  match a, b with
  | none, _ => Decidable.isTrue trivial
  | some _, none => Decidable.isFalse (fun h => h)
  | some x, some y => inferInstanceAs (Decidable (x ≤ y))

/-- The derived `Ord` on `Entry`: lexicographic on
`(start_time, end_time, comment)`, as produced by
`#[derive(PartialOrd, Ord)]` on a struct in field order. -/
def entryLe (a b : Entry) : Prop :=
  a.start_time < b.start_time
    ∨ (a.start_time = b.start_time
        ∧ (a.end_time < b.end_time
            ∨ (a.end_time = b.end_time ∧ commentLe a.comment b.comment)))

instance : DecidableRel entryLe := fun a b => by
  unfold entryLe
  infer_instance

/-- The `entries.sort()` call (main.rs line 384 and lines 605, 660): a stable sort
by the derived `Ord` on `Entry`. -/
def sortEntries (l : List Entry) : List Entry :=
  List.insertionSort entryLe l

/-- Function `clock` (main.rs lines 374-403), with the store passed in instead of
read from disk: sort the existing entries, build the new entry, reject it
when it overlaps any existing entry, otherwise push it and return the new
store contents. -/
def clock (start endT : Int) (comment : Option String) (entries : List Entry) :
    Except String (List Entry) :=
  let sorted := sortEntries entries
  let entry : Entry := { start_time := start, end_time := endT, comment := comment }
  if sorted.any (fun e => entries_overlap entry e) then
    Except.error ("New entry overlaps an existing one")
  else
    Except.ok (sorted ++ [entry])

/-- The per-namespace on-disk state: the optional clock-in marker
(`<ns>-clockin.yaml`, holding only a start time) and the entry store
(`<ns>.yaml`). -/
structure NsState where
  marker : Option Int
  entries : List Entry
deriving DecidableEq, Repr

/-- Function `clockout` (main.rs lines 440-447): read the marker (error when
absent), run `clock` with the marker's start time and the current time —
the `?` operator propagates a `clock` error before the marker file is
removed, leaving the state untouched — and only on success write the new
store and delete the marker. Returns the post-state together with the
command's result. -/
def clockout (comment : Option String) (nowT : Int) (s : NsState) :
    NsState × Except String Unit :=
  match s.marker with
  | none => (s, Except.error ("No clockin file found"))
  | some start =>
    match clock start nowT comment s.entries with
    | Except.error e => (s, Except.error e)
    | Except.ok es => ({ marker := none, entries := es }, Except.ok ())

/-- chrono's `duration_round` rounding core (used by `now()`,
main.rs lines 521-524) on a timestamp and span in nanoseconds: round to
the nearest multiple of the span, ties away from the floor. -/
def duration_round (stamp span : Int) : Int :=
  let delta_down := Int.tmod stamp span
  if delta_down = 0 then stamp
  else if delta_down < 0 then
    let delta_up := -delta_down
    let dd := span - delta_up
    if delta_up ≤ dd then stamp + delta_up else stamp - dd
  else
    let delta_up := span - delta_down
    if delta_up ≤ delta_down then stamp + delta_up else stamp - delta_down

/-- One minute in nanoseconds, the span `now()` rounds by. -/
def nanosPerMinute : Int := 60000000000

/-- Function `now` (main.rs lines 521-524): the current instant (as nanoseconds
since the epoch) rounded by `duration_round` with a one-minute span. -/
def now (t : Int) : Int := duration_round t nanosPerMinute

/-- Function `parse_starting_value_time` (main.rs lines 536-552), after the time
string has been parsed: given the current rounded date and time-of-day
(`now()`) and the parsed time-of-day `t` (minutes within the day), resolve
to today when the current time is strictly greater than `t`, otherwise to
yesterday (`checked_sub_days(1)`). Dates are day numbers, times are
minutes within the day. -/
def parse_starting_value_time (curDate curTime t : Int) : Int × Int :=
  if curTime > t then (curDate, t) else (curDate - 1, t)

/-- Proleptic Gregorian leap year, as used by chrono's `NaiveDate`. -/
def isLeapYear (y : Int) : Bool :=
  (decide (Int.emod y 4 = 0) && decide (Int.emod y 100 ≠ 0)) || decide (Int.emod y 400 = 0)

/-- Number of days in calendar month `m` of year `y`: the month lengths of
the proleptic Gregorian calendar, which `NaiveDate` implements and which
the spec describes as the 28/29/30/31-day month lengths. -/
def daysInCalendarMonth (y m : Int) : Int :=
  if m = 2 then (if isLeapYear y then 29 else 28)
  else if m = 4 ∨ m = 6 ∨ m = 9 ∨ m = 11 then 30
  else 31

/-- Day number of a Gregorian calendar date (days since 1970-01-01),
computed with the standard civil-calendar conversion; this is the value
`NaiveDate::signed_duration_since` differences reduce to. -/
def daysFromCivil (y m d : Int) : Int :=
  let yv := y - (if m ≤ 2 then 1 else 0)
  let era := Int.ediv yv 400
  let yoe := yv - era * 400
  let mp := Int.emod (m + 9) 12
  let doy := Int.ediv (153 * mp + 2) 5 + d - 1
  let doe := yoe * 365 + Int.ediv yoe 4 - Int.ediv yoe 100 + doy
  era * 146097 + doe - 719468

/-- Inverse conversion: the Gregorian date `(y, m, d)` of a day number. -/
def civilFromDays (z : Int) : Int × Int × Int :=
  let zz := z + 719468
  let era := Int.ediv zz 146097
  let doe := zz - era * 146097
  let yoe := Int.ediv (doe - Int.ediv doe 1460 + Int.ediv doe 36524 - Int.ediv doe 146096) 365
  let y := yoe + era * 400
  let doy := doe - (365 * yoe + Int.ediv yoe 4 - Int.ediv yoe 100)
  let mp := Int.ediv (5 * doy + 2) 153
  let d := doy - Int.ediv (153 * mp + 2) 5 + 1
  let m := mp + (if mp < 10 then 3 else -9)
  (y + (if m ≤ 2 then 1 else 0), m, d)

/-- chrono's `checked_add_months(Months::new(1))` on a date: advance the
month by one, clamping the day of month to the length of the target
month. -/
def addOneMonthClamped : Int × Int × Int → Int × Int × Int
  | (y, m, d) =>
    let ym := if m = 12 then (y + 1, 1) else (y, m + 1)
    (ym.1, ym.2, min d (daysInCalendarMonth ym.1 ym.2))

/-- Function `days_in_month` (main.rs lines 449-452): add one month to the date
(with chrono's day clamping) and return the difference in days. The
argument is the date as a day number (`NaiveDate`). -/
def days_in_month (z : Int) : Int :=
  let c := civilFromDays z
  let next := addOneMonthClamped c
  daysFromCivil next.1 next.2.1 next.2.2 - daysFromCivil c.1 c.2.1 c.2.2

/-- Method `DateTime::date_naive` on a minute timestamp: the day number of the
calendar day containing it (floor division by the 1440 minutes per day). -/
def dateNaive (t : Int) : Int := Int.ediv t 1440

/-- Tail of Rust's `Vec::dedup` after the first kept element `prev`: drop
elements equal to the previously kept one. -/
def rustDedupTail {α : Type} [DecidableEq α] (prev : α) : List α → List α
  | [] => []
  | b :: rest => if prev = b then rustDedupTail prev rest else b :: rustDedupTail b rest

/-- Rust's `Vec::dedup`: remove consecutive repeated elements, keeping the
first of each run. -/
def rustDedup {α : Type} [DecidableEq α] : List α → List α
  | [] => []
  | a :: rest => a :: rustDedupTail a rest

/-- Struct `SummaryTableItem` (main.rs lines 156-171). The month key is modelled
as the `(year, month)` pair the format string `"%Y/%m %B"` injectively
encodes, and `hours_per_week` as the exact rational the `f32` computation
approximates (the field is then rendered with `"{:.2}"`). -/
structure SummaryTableItem where
  month : Int × Int
  total_hours : HumanDuration
  hours_per_week : ℚ
  days : Nat
  nitems : Nat
deriving DecidableEq, Repr

/-- The `impl Into<SummaryTableItem> for (String, Vec<Entry>)`
(main.rs lines 339-359): dedup the (consecutive) start dates, fold the
durations from zero, divide the month length of the first entry's date by
7 to get weeks, apply the minutes adjustment (`0` when the total's minutes
are `0`, else `60 / minutes`), and divide. `entries.first().unwrap()`
panics on an empty group, modelled as `none`. -/
def summaryItem (month : Int × Int) (entries : List Entry) : Option SummaryTableItem :=
  match entries with
  | [] => none
  | first :: _ =>
    let dates := rustDedup (entries.map (fun e => dateNaive e.start_time))
    let total_hours := entries.foldl (fun d e => d.add e.duration) HumanDuration.zero
    let days := dates.length
    let weeks : ℚ := (days_in_month (dateNaive first.start_time) : ℚ) / 7
    let rem_minutes : ℚ :=
      if total_hours.minutes = 0 then 0 else 60 / (total_hours.minutes : ℚ)
    let hours_per_week := ((total_hours.hours : ℚ) + rem_minutes) / weeks
    some { month := month, total_hours := total_hours, hours_per_week := hours_per_week,
           days := days, nitems := entries.length }

/-- The month key `format("%Y/%m %B")` of an entry (main.rs line 677),
as the `(year, month)` pair of its start date. -/
def monthKey (e : Entry) : Int × Int :=
  let c := civilFromDays (dateNaive e.start_time)
  (c.1, c.2.1)

/-- One month group as built by `summarize` (main.rs lines 653-690): the
entries are sorted, then pushed month by month in order, so each group is
the in-order sublist of the sorted entries with that month key. -/
def monthGroup (km : Int × Int) (entries : List Entry) : List Entry :=
  (sortEntries entries).filter (fun e => decide (monthKey e = km))

/-- The comment filter shared by `show` (main.rs line 613) and `summarize`
(main.rs line 669): `e.comment.as_ref().map_or(true, |c| re.is_match(&c))`.
The compiled regex is modelled as an opaque match predicate on strings. -/
def commentFilterPasses (re : String → Bool) (e : Entry) : Bool :=
  (e.comment.map re).getD true

/-- The filtering stage of `show` (main.rs lines 605-615): sort, then keep
the entries for which the optional regex test passes
(`regex_opt.as_ref().map_or(true, ...)`). -/
def showFiltered (regex_opt : Option (String → Bool)) (entries : List Entry) : List Entry :=
  (sortEntries entries).filter
    (fun e => (regex_opt.map (fun re => commentFilterPasses re e)).getD true)

/-- The filtering stage of `summarize` (main.rs lines 660-671): sort, then
when a regex is supplied keep the entries passing the comment test. -/
def summarizeFiltered (regex_opt : Option (String → Bool)) (entries : List Entry) :
    List Entry :=
  match regex_opt with
  | none => sortEntries entries
  | some re => (sortEntries entries).filter (fun e => commentFilterPasses re e)

/-- A single clock entry of 40 hours on 2024-04-10 (a 30-day month), the
scenario the spec uses for the hours-per-week formula. -/
def aprilEntry : Entry :=
  { start_time := daysFromCivil 2024 4 10 * 1440,
    end_time := daysFromCivil 2024 4 10 * 1440 + 2400,
    comment := none }

/-- Three one-hour entries on the same calendar day (2024-04-10), used to
exercise the distinct-day count with more than two entries per date. -/
def threeSameDayEntries : List Entry :=
  [{ start_time := daysFromCivil 2024 4 10 * 1440,
     end_time := daysFromCivil 2024 4 10 * 1440 + 60, comment := none },
   { start_time := daysFromCivil 2024 4 10 * 1440 + 120,
     end_time := daysFromCivil 2024 4 10 * 1440 + 180, comment := none },
   { start_time := daysFromCivil 2024 4 10 * 1440 + 240,
     end_time := daysFromCivil 2024 4 10 * 1440 + 300, comment := none }]

/-! Helper lemmas. -/

theorem tmod_neg_left (a b : Int) : Int.tmod (-a) b = -Int.tmod a b := by
  rw [Int.tmod_def, Int.tmod_def, Int.neg_tdiv]
  ring

theorem commentLe_trans : ∀ {a b c : Option String},
    commentLe a b → commentLe b c → commentLe a c
  | none, _, _, _, _ => trivial
  | some _, none, _, h1, _ => absurd h1 id
  | some _, some _, none, _, h2 => absurd h2 id
  | some _, some _, some _, h1, h2 => le_trans h1 h2

theorem commentLe_total : ∀ a b : Option String, commentLe a b ∨ commentLe b a
  | none, _ => Or.inl trivial
  | some _, none => Or.inr trivial
  | some x, some y => le_total x y

instance : IsTrans Entry entryLe := by
  refine ⟨fun a b c hab hbc => ?_⟩
  unfold entryLe at *
  rcases hab with h1 | ⟨e1, h1⟩
  · rcases hbc with h2 | ⟨e2, h2⟩
    · exact Or.inl (h1.trans h2)
    · exact Or.inl (by omega)
  · rcases hbc with h2 | ⟨e2, h2⟩
    · exact Or.inl (by omega)
    · refine Or.inr ⟨by omega, ?_⟩
      rcases h1 with h1 | ⟨f1, hc1⟩
      · rcases h2 with h2 | ⟨f2, hc2⟩
        · exact Or.inl (by omega)
        · exact Or.inl (by omega)
      · rcases h2 with h2 | ⟨f2, hc2⟩
        · exact Or.inl (by omega)
        · exact Or.inr ⟨by omega, commentLe_trans hc1 hc2⟩

instance : IsTotal Entry entryLe := by
  refine ⟨fun a b => ?_⟩
  unfold entryLe
  rcases lt_trichotomy a.start_time b.start_time with h | h | h
  · exact Or.inl (Or.inl h)
  · rcases lt_trichotomy a.end_time b.end_time with h2 | h2 | h2
    · exact Or.inl (Or.inr ⟨h, Or.inl h2⟩)
    · rcases commentLe_total a.comment b.comment with h3 | h3
      · exact Or.inl (Or.inr ⟨h, Or.inr ⟨h2, h3⟩⟩)
      · exact Or.inr (Or.inr ⟨h.symm, Or.inr ⟨h2.symm, h3⟩⟩)
    · exact Or.inr (Or.inr ⟨h.symm, Or.inl h2⟩)
  · exact Or.inr (Or.inl h)

theorem entryLe_start_le {a b : Entry} (h : entryLe a b) :
    a.start_time ≤ b.start_time := by
  unfold entryLe at h
  rcases h with h | ⟨h, _⟩ <;> omega

theorem mem_rustDedupTail (prev : Int) (l : List Int) (x : Int) :
    (x ∈ rustDedupTail prev l ∨ x = prev) ↔ (x ∈ l ∨ x = prev) := by
  induction l generalizing prev with
  | nil => simp [rustDedupTail]
  | cons b rest ih =>
    rw [rustDedupTail]
    by_cases h : prev = b
    · subst h
      rw [if_pos rfl]
      have := ih prev
      simp only [List.mem_cons]
      tauto
    · rw [if_neg h]
      have := ih b
      simp only [List.mem_cons]
      tauto

theorem rustDedupTail_nodup_and_gt (prev : Int) (l : List Int)
    (hsort : l.Pairwise (· ≤ ·)) (hle : ∀ x ∈ l, prev ≤ x) :
    (rustDedupTail prev l).Nodup ∧ ∀ x ∈ rustDedupTail prev l, prev < x := by
  induction l generalizing prev with
  | nil => simp [rustDedupTail]
  | cons b rest ih =>
    rw [List.pairwise_cons] at hsort
    obtain ⟨hb, hrest⟩ := hsort
    rw [rustDedupTail]
    by_cases h : prev = b
    · subst h
      rw [if_pos rfl]
      exact ih prev hrest hb
    · rw [if_neg h]
      have hpb : prev < b := lt_of_le_of_ne (hle b (by simp)) h
      obtain ⟨hnd, hgt⟩ := ih b hrest hb
      refine ⟨List.nodup_cons.mpr ⟨fun hmem => absurd (hgt b hmem) (lt_irrefl b), hnd⟩, ?_⟩
      intro x hx
      rcases List.mem_cons.mp hx with rfl | hx
      · exact hpb
      · exact hpb.trans (hgt x hx)

theorem rustDedup_length_of_sorted (l : List Int) (h : l.Pairwise (· ≤ ·)) :
    (rustDedup l).length = l.toFinset.card := by
  cases l with
  | nil => simp [rustDedup]
  | cons a rest =>
    rw [List.pairwise_cons] at h
    obtain ⟨ha, hrest⟩ := h
    obtain ⟨hnd, hgt⟩ := rustDedupTail_nodup_and_gt a rest hrest ha
    have hnodup : (a :: rustDedupTail a rest).Nodup :=
      List.nodup_cons.mpr ⟨fun hmem => absurd (hgt a hmem) (lt_irrefl a), hnd⟩
    have hfs : (a :: rustDedupTail a rest).toFinset = (a :: rest).toFinset := by
      apply Finset.ext
      intro x
      simp only [List.mem_toFinset, List.mem_cons]
      have := mem_rustDedupTail a rest x
      tauto
    calc (rustDedup (a :: rest)).length
        = (a :: rustDedupTail a rest).toFinset.card :=
          (List.toFinset_card_of_nodup hnodup).symm
      _ = (a :: rest).toFinset.card := by rw [hfs]

theorem humanDuration_add_eq_of_nonneg (a b : HumanDuration)
    (ha : 0 ≤ a.minutes) (hb : 0 ≤ b.minutes) :
    a.add b = { hours := a.hours + b.hours + (a.minutes + b.minutes) / 60,
                minutes := (a.minutes + b.minutes) % 60 } := by
  have h0 : (0 : Int) ≤ a.minutes + b.minutes := by omega
  show ({ hours := a.hours + b.hours + Int.tdiv (a.minutes + b.minutes) 60,
          minutes := Int.tmod (a.minutes + b.minutes) 60 } : HumanDuration) = _
  rw [Int.tdiv_eq_ediv h0 (by norm_num), Int.tmod_eq_emod h0 (by norm_num)]

/-! Claim theorems. -/

/-- C1: the claim says inserting a second Entry with the same start and
end times as an existing one is rejected with an OverlapError. The code
does the opposite: all four conditions of `entries_overlap` are strict
inequalities, so an entry never overlaps an identical copy of itself, and
`clock` appends the duplicate successfully. This theorem evaluates the
code at the failing input: a store holding the entry 0..60 accepts the
very same entry a second time. -/
theorem duplicate_entry_accepted :
    entries_overlap { start_time := 0, end_time := 60, comment := none }
        { start_time := 0, end_time := 60, comment := none } = false ∧
    clock 0 60 none [{ start_time := 0, end_time := 60, comment := none }] =
      Except.ok [{ start_time := 0, end_time := 60, comment := none },
                 { start_time := 0, end_time := 60, comment := none }] :=
  ⟨by decide, rfl⟩

/-- C2 counterexample: the claim says `now()` rounds the current instant
down to the start of the minute and is never later than the actual
instant. At 2 minutes 45 seconds past the epoch (in nanoseconds) the
code's `duration_round` returns 3 minutes: not the rounded-down 2 minutes,
and strictly later than the actual instant. -/
theorem now_not_rounded_down :
    now 165000000000 = 180000000000 ∧
    now 165000000000 ≠ 120000000000 ∧
    ¬ now 165000000000 ≤ 165000000000 := by decide

/-- C2 (amended): `now()` rounds the current instant to the nearest
minute boundary — remainders of 30 seconds or more round up — so the
result is always minute-aligned and differs from the actual instant by at
most 30 seconds (it can therefore be up to 30 seconds later than the
actual instant, but never more). -/
theorem now_rounds_to_nearest_minute (t : Int) :
    nanosPerMinute ∣ now t ∧
    t - 30000000000 < now t ∧ now t ≤ t + 30000000000 := by
  unfold now duration_round nanosPerMinute
  have hid := Int.tmod_add_tdiv t 60000000000
  have hub : Int.tmod t 60000000000 < 60000000000 :=
    Int.tmod_lt_of_pos t (by norm_num)
  have hlb : -60000000000 < Int.tmod t 60000000000 := by
    rcases le_or_lt 0 t with ht | ht
    · have := Int.tmod_nonneg (60000000000 : Int) ht
      omega
    · have h2 : Int.tmod (-t) 60000000000 < 60000000000 :=
        Int.tmod_lt_of_pos (-t) (by norm_num)
      have h3 : Int.tmod (-t) 60000000000 = -Int.tmod t 60000000000 :=
        tmod_neg_left t 60000000000
      omega
  dsimp only
  split_ifs <;> refine ⟨?_, by omega, by omega⟩ <;> omega

/-- C3: `entries_overlap a b` holds exactly when one of the four strict
open-interval conditions holds, and in particular two back-to-back
entries (the first ending exactly when the second starts, both with
start ≤ end) do not overlap and can both be appended to the same
(initially empty) store. -/
theorem entries_overlap_iff_and_back_to_back :
    (∀ a b : Entry, entries_overlap a b = true ↔
      ((a.start_time > b.start_time ∧ a.start_time < b.end_time)
        ∨ (a.end_time > b.start_time ∧ a.end_time < b.end_time)
        ∨ (b.start_time > a.start_time ∧ b.start_time < a.end_time)
        ∨ (b.end_time > a.start_time ∧ b.end_time < a.end_time))) ∧
    (∀ a b : Entry, a.start_time ≤ a.end_time → b.start_time ≤ b.end_time →
      a.end_time = b.start_time →
      entries_overlap a b = false ∧
      clock a.start_time a.end_time a.comment [] = Except.ok [a] ∧
      clock b.start_time b.end_time b.comment [a] = Except.ok [a, b]) := by
  constructor
  · intro a b
    simp [entries_overlap]
    tauto
  · intro a b ha hb hab
    have hba : entries_overlap b a = false := by
      simp only [entries_overlap, Bool.or_eq_false_iff, Bool.and_eq_false_iff,
        decide_eq_false_iff_not, not_lt, gt_iff_lt]
      omega
    have hba' : entries_overlap
        { start_time := b.start_time, end_time := b.end_time, comment := b.comment } a
          = false := hba
    refine ⟨?_, rfl, ?_⟩
    · simp only [entries_overlap, Bool.or_eq_false_iff, Bool.and_eq_false_iff,
        decide_eq_false_iff_not, not_lt, gt_iff_lt]
      omega
    · simp [clock, sortEntries, List.insertionSort, List.orderedInsert, hba']

/-- C3 witness: the back-to-back pair 0..60 and 60..120. -/
theorem entries_overlap_back_to_back_witness :
    entries_overlap { start_time := 0, end_time := 60, comment := none }
        { start_time := 60, end_time := 120, comment := none } = false ∧
    clock 0 60 none [] =
      Except.ok [{ start_time := 0, end_time := 60, comment := none }] ∧
    clock 60 120 none [{ start_time := 0, end_time := 60, comment := none }] =
      Except.ok [{ start_time := 0, end_time := 60, comment := none },
                 { start_time := 60, end_time := 120, comment := none }] :=
  entries_overlap_iff_and_back_to_back.2
    { start_time := 0, end_time := 60, comment := none }
    { start_time := 60, end_time := 120, comment := none }
    (by decide) (by decide) rfl

/-- C4: when a marker is present, `clockout` propagates any `clock`
failure (in particular the overlap error) without touching the state —
the marker survives unchanged — and deletes the marker exactly when the
append succeeds. -/
theorem clockout_marker_semantics (s : NsState) (c : Option String)
    (t start : Int) (h : s.marker = some start) :
    (∀ msg, clock start t c s.entries = Except.error msg →
      clockout c t s = (s, Except.error msg)) ∧
    (∀ es, clock start t c s.entries = Except.ok es →
      clockout c t s = ({ marker := none, entries := es }, Except.ok ())) := by
  constructor <;> intro x hx <;> simp [clockout, h, hx]

/-- C4 witness: a clock-out at minute 60 against a store already holding
0..120 fails with the overlap error and leaves the marker in place, while
the same clock-out against an empty store appends 0..60 and deletes the
marker. -/
theorem clockout_marker_semantics_witness :
    clockout none 60
        { marker := some 0,
          entries := [{ start_time := 0, end_time := 120, comment := none }] } =
      ({ marker := some 0,
         entries := [{ start_time := 0, end_time := 120, comment := none }] },
        Except.error ("New entry overlaps an existing one")) ∧
    clockout none 60 { marker := some 0, entries := [] } =
      ({ marker := none,
         entries := [{ start_time := 0, end_time := 60, comment := none }] },
        Except.ok ()) :=
  ⟨(clockout_marker_semantics _ none 60 0 rfl).1 _ rfl,
   (clockout_marker_semantics _ none 60 0 rfl).2 _ rfl⟩

/-- C5: for durations satisfying the data-model invariant (minutes in
[0,60), non-negative hours), addition is associative and commutative and
keeps the minutes field inside [0,60). -/
theorem humanDuration_add_assoc_comm_range (a b c : HumanDuration)
    (ha : 0 ≤ a.hours ∧ 0 ≤ a.minutes ∧ a.minutes < 60)
    (hb : 0 ≤ b.hours ∧ 0 ≤ b.minutes ∧ b.minutes < 60)
    (hc : 0 ≤ c.hours ∧ 0 ≤ c.minutes ∧ c.minutes < 60) :
    a.add (b.add c) = (a.add b).add c ∧
    a.add b = b.add a ∧
    0 ≤ (a.add b).minutes ∧ (a.add b).minutes < 60 := by
  obtain ⟨-, ha2, -⟩ := ha
  obtain ⟨-, hb2, -⟩ := hb
  obtain ⟨-, hc2, -⟩ := hc
  have hbc := humanDuration_add_eq_of_nonneg b c hb2 hc2
  have hab := humanDuration_add_eq_of_nonneg a b ha2 hb2
  have hba := humanDuration_add_eq_of_nonneg b a hb2 ha2
  refine ⟨?_, ?_, ?_, ?_⟩
  · rw [hbc, hab]
    rw [humanDuration_add_eq_of_nonneg a _ ha2 (by simp; omega),
        humanDuration_add_eq_of_nonneg _ c (by simp; omega) hc2]
    ext <;> simp <;> omega
  · rw [hab, hba]
    ext <;> simp <;> omega
  · rw [hab]
    simp
    omega
  · rw [hab]
    simp
    omega

/-- C5 witness: the properties at 01:30h, 02:45h, 00:50h. -/
theorem humanDuration_add_assoc_comm_range_witness :
    HumanDuration.add { hours := 1, minutes := 30 }
        (HumanDuration.add { hours := 2, minutes := 45 } { hours := 0, minutes := 50 }) =
      HumanDuration.add
        (HumanDuration.add { hours := 1, minutes := 30 } { hours := 2, minutes := 45 })
        { hours := 0, minutes := 50 } ∧
    HumanDuration.add { hours := 1, minutes := 30 } { hours := 2, minutes := 45 } =
      HumanDuration.add { hours := 2, minutes := 45 } { hours := 1, minutes := 30 } ∧
    0 ≤ (HumanDuration.add { hours := 1, minutes := 30 } { hours := 2, minutes := 45 }).minutes ∧
    (HumanDuration.add { hours := 1, minutes := 30 } { hours := 2, minutes := 45 }).minutes < 60 :=
  humanDuration_add_assoc_comm_range
    { hours := 1, minutes := 30 } { hours := 2, minutes := 45 } { hours := 0, minutes := 50 }
    (by decide) (by decide) (by decide)

/-- C6: after the time-only fallback has parsed a time of day `t`, the
resulting datetime is today at `t` exactly when `t` is strictly before
the current rounded time, yesterday at `t` otherwise; in both cases the
result is strictly earlier than the current rounded datetime, so it never
lies in the future. Dates compare as day numbers and datetimes
lexicographically by (date, time). -/
theorem parse_starting_value_time_resolution (curDate curTime t : Int) :
    (t < curTime → parse_starting_value_time curDate curTime t = (curDate, t)) ∧
    (curTime ≤ t → parse_starting_value_time curDate curTime t = (curDate - 1, t)) ∧
    ((parse_starting_value_time curDate curTime t).1 < curDate
      ∨ ((parse_starting_value_time curDate curTime t).1 = curDate
          ∧ (parse_starting_value_time curDate curTime t).2 < curTime)) := by
  unfold parse_starting_value_time
  split_ifs with h
  · exact ⟨fun _ => rfl, fun hc => absurd h (by omega), Or.inr ⟨rfl, by omega⟩⟩
  · exact ⟨fun hc => absurd hc (by omega), fun _ => rfl, Or.inl (by omega)⟩

/-- C6 witness: the spec's example — parsing 09:30 when the current time
is 10:00 resolves to today at 09:30; parsing 09:30 when the current time
is 09:00 resolves to yesterday at 09:30. -/
theorem parse_starting_value_time_resolution_witness :
    parse_starting_value_time 19800 600 570 = (19800, 570) ∧
    parse_starting_value_time 19800 540 570 = (19799, 570) :=
  ⟨(parse_starting_value_time_resolution 19800 600 570).1 (by decide),
   (parse_starting_value_time_resolution 19800 540 570).2.1 (by decide)⟩

/-- C7: for every non-empty month group, the emitted hours-per-week value
is (total hours + adjustment) divided by (days in the first entry's month
divided by 7), where the adjustment is 0 when the total's minutes field
is 0 and 60 divided by the minutes field otherwise; and on the spec's
scenario — a group totalling 40 hours 0 minutes in the 30-day month April
2024 — the value is 28/3, which prints as 9.33 under two-decimal
rounding. -/
theorem summarize_hours_per_week_formula :
    (∀ (km : Int × Int) (first : Entry) (rest : List Entry),
      (summaryItem km (first :: rest)).map SummaryTableItem.hours_per_week =
        some (((((first :: rest).foldl (fun d e => d.add e.duration)
                  HumanDuration.zero).hours : ℚ) +
              (if ((first :: rest).foldl (fun d e => d.add e.duration)
                    HumanDuration.zero).minutes = 0 then 0
               else 60 / (((first :: rest).foldl (fun d e => d.add e.duration)
                    HumanDuration.zero).minutes : ℚ))) /
          ((days_in_month (dateNaive first.start_time) : ℚ) / 7))) ∧
    (summaryItem (2024, 4) [aprilEntry]).map SummaryTableItem.hours_per_week =
      some (28 / 3) ∧
    |(28 : ℚ) / 3 - 933 / 100| < 1 / 100 := by
  refine ⟨fun km first rest => rfl, ?_, ?_⟩
  · have hfold : List.foldl (fun d e => d.add e.duration) HumanDuration.zero [aprilEntry]
        = { hours := 40, minutes := 0 } := by decide
    have hdim : days_in_month (dateNaive aprilEntry.start_time) = 30 := by decide
    have hs : summaryItem (2024, 4) [aprilEntry] =
        some { month := (2024, 4), total_hours := { hours := 40, minutes := 0 },
               hours_per_week := 28 / 3,
               days := (rustDedup (List.map (fun e => dateNaive e.start_time)
                 [aprilEntry])).length,
               nitems := 1 } := by
      simp only [summaryItem, hfold, hdim, List.length_cons, List.length_nil]
      norm_num
    rw [hs]
    rfl
  · rw [abs_sub_lt_iff]
    constructor <;> norm_num

/-- C8: the claim says `days_in_month` returns the length of the calendar
month containing the date. But `checked_add_months` clamps the day of
month: for 2023-01-30 the next month is 2023-02-28, so the code returns
29 while January has 31 days. This theorem evaluates the code at the
failing input. -/
theorem days_in_month_clamped_at_jan30 :
    days_in_month (daysFromCivil 2023 1 30) = 29 ∧
    daysInCalendarMonth 2023 1 = 31 := by decide

/-- C9: for every month group produced by summarize (which sorts the
entries before grouping, so each group is an in-order slice of the sorted
store), the emitted days field equals the number of distinct calendar
dates among the group's start times: consecutive deduplication counts
each date once because a list sorted by start time has its equal dates
adjacent. -/
theorem summarize_distinct_days (entries : List Entry) (km : Int × Int)
    (h : monthGroup km entries ≠ []) :
    (summaryItem km (monthGroup km entries)).map SummaryTableItem.days =
      some ((monthGroup km entries).map
        (fun e => dateNaive e.start_time)).toFinset.card := by
  have hsorted : (monthGroup km entries).Pairwise
      (fun a b => a.start_time ≤ b.start_time) := by
    have h1 : (sortEntries entries).Pairwise entryLe :=
      List.sorted_insertionSort entryLe entries
    exact (List.Pairwise.sublist (List.filter_sublist _) h1).imp entryLe_start_le
  have hdates : ((monthGroup km entries).map
      (fun e => dateNaive e.start_time)).Pairwise (fun a b => a ≤ b) := by
    rw [List.pairwise_map]
    exact hsorted.imp (fun hab => Int.ediv_le_ediv (by norm_num) hab)
  obtain ⟨e0, rest, hg⟩ : ∃ e0 rest, monthGroup km entries = e0 :: rest := by
    cases hmg : monthGroup km entries with
    | nil => exact absurd hmg h
    | cons x xs => exact ⟨x, xs, rfl⟩
  rw [hg] at hdates ⊢
  simp only [summaryItem, Option.map_some']
  exact congrArg some (rustDedup_length_of_sorted _ hdates)

/-- C9 witness: three one-hour entries on the same date count as one
distinct day. -/
theorem summarize_distinct_days_witness :
    (summaryItem (2024, 4) (monthGroup (2024, 4) threeSameDayEntries)).map
        SummaryTableItem.days =
      some ((monthGroup (2024, 4) threeSameDayEntries).map
        (fun e => dateNaive e.start_time)).toFinset.card :=
  summarize_distinct_days threeSameDayEntries (2024, 4) (by decide)

/-- C10: in both the show and the summarize filtering stages, an entry
whose comment is absent passes any supplied regex filter (the inner
`map_or(true, ...)` defaults to keeping it), so comment-less entries are
members of every filtered listing and every filtered summary input. -/
theorem commentless_entries_pass_filters (re : String → Bool)
    (entries : List Entry) (e : Entry) (hmem : e ∈ entries)
    (hc : e.comment = none) :
    e ∈ showFiltered (some re) entries ∧ e ∈ summarizeFiltered (some re) entries := by
  have hs : e ∈ sortEntries entries :=
    (List.perm_insertionSort entryLe entries).mem_iff.mpr hmem
  have hp : commentFilterPasses re e = true := by
    simp [commentFilterPasses, hc]
  constructor
  · refine List.mem_filter.mpr ⟨hs, ?_⟩
    simp [hp]
  · exact List.mem_filter.mpr ⟨hs, hp⟩

/-- C10 witness: a comment-less entry passes a regex that matches
nothing, in both pipelines. -/
theorem commentless_entries_pass_filters_witness :
    ({ start_time := 0, end_time := 60, comment := none } : Entry) ∈
        showFiltered (some (fun _ => false))
          [{ start_time := 0, end_time := 60, comment := none }] ∧
    ({ start_time := 0, end_time := 60, comment := none } : Entry) ∈
        summarizeFiltered (some (fun _ => false))
          [{ start_time := 0, end_time := 60, comment := none }] :=
  commentless_entries_pass_filters (fun _ => false) _ _
    (List.mem_singleton.mpr rfl) rfl

example : HumanDuration.add { hours := 1, minutes := 45 } { hours := 2, minutes := 30 } =
    { hours := 4, minutes := 15 } := by decide

example : entries_overlap { start_time := 0, end_time := 60, comment := none }
    { start_time := 0, end_time := 60, comment := none } = false := by decide

example : now 165000000000 = 180000000000 := by decide

example : daysFromCivil 1970 1 1 = 0 := by decide

example : civilFromDays 0 = (1970, 1, 1) := by decide

example : civilFromDays (daysFromCivil 2023 1 30) = (2023, 1, 30) := by decide

example : days_in_month (daysFromCivil 2023 1 30) = 29 := by decide

example : days_in_month (daysFromCivil 2023 1 15) = 31 := by decide

example : days_in_month (daysFromCivil 2024 4 10) = 30 := by decide

example : days_in_month (daysFromCivil 2024 2 10) = 29 := by decide

example : rustDedup [1, 1, 2, 2, 2, 3] = [1, 2, 3] := by decide
